import Mathlib

/-!
Shallow embedding of the `specify_cli` / `specify4_cli` scaffolding tool
(repository `localden/sdd`), covering the archive resolver, the archive
installer (source-root detection and merge-mode copy), the download stream,
the init command's pre-download checks, the repository-initializer step and
the interactive selection menu, together with theorems settling the spec's
claims about those components.
-/

namespace Sdd

/-! ## Strings as character lists

Python's `pattern in name` and `name.endswith(".zip")` are modelled by
executable containment / suffix tests over the character list of a `String`. -/

/-- Test `firstMatches needle hay`: the characters of `needle` appear at the very
start of `hay` (the building block for substring containment). -/
def firstMatches : List Char → List Char → Bool
  | [], _ => true
  | _ :: _, [] => false
  | a :: as, b :: bs => a == b && firstMatches as bs

/-- Test `containsSubList needle hay`: `needle` occurs as a contiguous substring of
`hay` — the model of Python's `needle in hay` on strings. -/
def containsSubList (needle : List Char) : List Char → Bool
  | [] => firstMatches needle []
  | c :: rest => firstMatches needle (c :: rest) || containsSubList needle rest

/-- Python `needle in hay` for `String`s. -/
def strContains (hay needle : String) : Bool :=
  containsSubList needle.toList hay.toList

/-- Python `hay.endswith(suffix)` for `String`s. -/
def strEndsWith (hay suffix : String) : Bool :=
  firstMatches suffix.toList.reverse hay.toList.reverse

/-! ## Archive Resolver, direct (HTTP) strategy

Embeds the asset-selection logic of `download_template_from_github`
(`src/specify_cli/__init__.py`, lines 314–329):

    pattern = f"sdd-template-{ai_assistant}"
    matching_assets = [
        asset for asset in release_data.get("assets", [])
        if pattern in asset["name"] and asset["name"].endswith(".zip")
    ]
    if not matching_assets: ... raise typer.Exit(1)   -- lists available names
    asset = matching_assets[0]
-/

/-- One entry of the release listing's asset list. -/
structure ReleaseAsset where
  name : String
  browser_download_url : String
  size : Nat
deriving DecidableEq

/-- Result of resolving a template asset: the chosen asset, or NotFound
together with the available asset names printed for diagnosis. -/
inductive ResolveResult where
  | ok (a : ReleaseAsset)
  | notFound (available : List String)
deriving DecidableEq

/-- The filter predicate of the list comprehension:
`pattern in asset["name"] and asset["name"].endswith(".zip")` with
`pattern = "sdd-template-" + ai_assistant`. -/
def assetMatches (ai : String) (a : ReleaseAsset) : Bool :=
  strContains a.name ("sdd-template-" ++ ai) && strEndsWith a.name ".zip"

/-- Asset selection of `download_template_from_github`: filter the listing,
fail with NotFound (listing all names) on zero matches, else take the first. -/
def findTemplateAsset (ai : String) (assets : List ReleaseAsset) : ResolveResult :=
  match assets.filter (assetMatches ai) with
  | [] => .notFound (assets.map ReleaseAsset.name)
  | a :: _ => .ok a

/-- Release listing used for the concrete resolver examples (asset names as
actually produced by this project's release process, `sdd-template-*`). -/
def demoAssets : List ReleaseAsset :=
  [⟨"sdd-template-claude-v1.zip", "u1", 10⟩, ⟨"sdd-template-gemini-v1.zip", "u2", 20⟩]

/-! ## Selection Menu

Embeds the event loop of `select_with_arrows` (both CLI variants):

    key = get_key()
    if key == 'up':      selected_index = (selected_index - 1) % len(option_keys)
    elif key == 'down':  selected_index = (selected_index + 1) % len(option_keys)
    elif key == 'enter': selected_key = option_keys[selected_index]; break
    elif key == 'escape': raise typer.Exit(1)
    (Ctrl+C raises KeyboardInterrupt, caught → typer.Exit(1))

Any other key falls through with no state change and the loop continues.
The loop is driven here by an explicit list of key events. -/

/-- One normalized key event produced by `get_key`. -/
inductive Key where
  | up
  | down
  | enter
  | escape
  | interrupt
  | char (c : Char)
deriving DecidableEq

/-- Outcome of the menu loop on a finite event list: a selection (enter), a
cancellation (`typer.Exit(1)` from escape / KeyboardInterrupt), or the loop is
still waiting for more input, carrying the current highlighted index. -/
inductive SelOutcome where
  | selected (key : String)
  | cancelled
  | waiting (index : Nat)
deriving DecidableEq

/-- Highlighted-index update for `up`: Python `(i - 1) % n` on `0 ≤ i < n`,
written on `Nat` as `(i + (n - 1)) % n`. -/
def upStep (n i : Nat) : Nat := (i + (n - 1)) % n

/-- Highlighted-index update for `down`: Python `(i + 1) % n`. -/
def downStep (n i : Nat) : Nat := (i + 1) % n

/-- The `while True` loop of `select_with_arrows`, consuming key events one by
one; `optionKeys` is `list(options.keys())` and `i` the highlighted index. -/
def selLoop (optionKeys : List String) : List Key → Nat → SelOutcome
  | [], i => .waiting i
  | .up :: rest, i => selLoop optionKeys rest (upStep optionKeys.length i)
  | .down :: rest, i => selLoop optionKeys rest (downStep optionKeys.length i)
  | .enter :: _, i => .selected (optionKeys.getD i "")
  | .escape :: _, _ => .cancelled
  | .interrupt :: _, _ => .cancelled
  | .char _ :: rest, i => selLoop optionKeys rest i

/-- Keys whose event aborts the menu: escape, or the interrupt combination. -/
def isCancelKey : Key → Bool
  | .escape => true
  | .interrupt => true
  | _ => false

/-! ## Download stream

Embeds the streamed download of `download_template_from_github`
(`src/specify_cli/__init__.py`, lines 342–374): chunks are written to the
file as they arrive; a transport error (`httpx.RequestError`) aborts the
loop, the handler deletes the partially written file and exits with
DownloadFailed. -/

/-- One event observed while iterating the response body. -/
inductive StreamEvent where
  | chunk (bytes : List Nat)
  | transportError
deriving DecidableEq

/-- Outcome of the download step. -/
inductive DownloadOutcome where
  | downloaded (file : List Nat)
  | failed
deriving DecidableEq

/-- The `for chunk in response.iter_bytes(...)` loop: appends each chunk to
the open file; a transport error raises out of the loop (`none`). -/
def streamChunks : List StreamEvent → List Nat → Option (List Nat)
  | [], acc => some acc
  | .chunk b :: rest, acc => streamChunks rest (acc ++ b)
  | .transportError :: _, _ => none

/-- All bytes the asset would deliver were no error to occur. -/
def allChunkBytes : List StreamEvent → List Nat
  | [] => []
  | .chunk b :: rest => b ++ allChunkBytes rest
  | .transportError :: rest => allChunkBytes rest

/-- Whether a transport error occurs anywhere in the event stream. -/
def hasTransportError : List StreamEvent → Bool
  | [] => false
  | .chunk _ :: rest => hasTransportError rest
  | .transportError :: _ => true

/-- The whole download step: stream to the file; on `httpx.RequestError` the
except-handler unlinks any partial file (`if zip_path.exists(): unlink`) and
raises `typer.Exit(1)` (DownloadFailed). Second component: the file at
`zip_path` afterwards (`none` = no file). -/
def downloadAssetStream (events : List StreamEvent) :
    DownloadOutcome × Option (List Nat) :=
  match streamChunks events [] with
  | some bytes => (.downloaded bytes, some bytes)
  | none => (.failed, none)

/-! ## `init` command, create-mode pre-download checks

Embeds the order of operations of `init` (`src/specify_cli/__init__.py`,
lines 544–608) for the named-project (create-mode) path with an `--ai` flag:
the `project_path.exists()` check and its `typer.Exit(1)` happen before the
tool checks, the AI validation, the agent-tool check, and all network and
filesystem activity of the download/extract phase. -/

/-- Externally visible side effects of the create-mode init pipeline. -/
inductive Effect where
  | networkRequest
  | fsWriteFile
  | fsCreateDir
deriving DecidableEq

/-- Fatal error kinds of the init pipeline. -/
inductive InitError where
  | alreadyExists
  | invalidSelection
  | agentToolMissing
  | downloadFailed
deriving DecidableEq

/-- Environment a create-mode `init` run observes. -/
structure InitEnv where
  pathExists : Bool
  aiFlagValid : Bool
  ignoreAgentTools : Bool
  agentToolPresent : Bool
  stream : List StreamEvent
deriving DecidableEq

/-- Create-mode `init` up to and including the download, with its effect
trace. Mirrors the source order: exists-check (line 547, `typer.Exit(1)`),
AI-flag validation (line 572), agent-tool gate (line 599), then
`download_and_extract_template` (network request, archive written to disk,
project directory created). -/
def initCreate (env : InitEnv) : Except InitError Unit × List Effect :=
  if env.pathExists then (.error .alreadyExists, [])
  else if !env.aiFlagValid then (.error .invalidSelection, [])
  else if !env.ignoreAgentTools && !env.agentToolPresent then
    (.error .agentToolMissing, [])
  else
    match downloadAssetStream env.stream with
    | (.failed, _) => (.error .downloadFailed, [.networkRequest])
    | (.downloaded _, _) =>
        (.ok (), [.networkRequest, .fsWriteFile, .fsCreateDir])

/-! ## Repository Initializer step

Embeds the git phase after a successful extract.

`specify_cli` (lines 610–624): inside the try-block, but none of its branches
raises — `is_git_repo` and `init_git_repo` catch their own subprocess errors
and return a Bool, and every branch just prints:

    if not no_git:
        if is_git_repo(project_path): ...        # informational, success
        elif git_available:
            if init_git_repo(project_path): pass
            else: ...warning...                  # non-fatal
        else: ...git-not-available warning...
    else: ...skipped (--no-git)...

`specify4_cli` (lines 442–460): `subprocess.run(["git","init"], check=True)`
etc. run directly in the try-block; a failure raises
`CalledProcessError`, the except-handler removes the project directory and
raises `typer.Exit(1)`. -/

/-- Message/outcome of the git step in `specify_cli`. -/
inductive GitStepMsg where
  | skippedByFlag
  | existingRepoDetected
  | initialized
  | initFailedWarning
  | gitUnavailableWarning
deriving DecidableEq

/-- Fatal error of the `specify4_cli` git step. -/
inductive FatalErr where
  | repoInitFatal
deriving DecidableEq

/-- The git phase of `specify_cli.init` (lines 610–624). `initOk` is the
Bool returned by `init_git_repo`, which catches `CalledProcessError` itself. -/
def specifyGitStep (noGit isRepo gitAvailable initOk : Bool) :
    Except FatalErr GitStepMsg :=
  if noGit then .ok .skippedByFlag
  else if isRepo then .ok .existingRepoDetected
  else if gitAvailable then
    if initOk then .ok .initialized else .ok .initFailedWarning
  else .ok .gitUnavailableWarning

/-- The git phase of `specify4_cli.init` (lines 442–460): `check=True`
subprocess calls raise on failure, escaping to the except-handler. -/
def specify4GitStep (initOk : Bool) : Except FatalErr GitStepMsg :=
  if initOk then .ok .initialized else .error .repoInitFatal

/-- Model of `specify4_cli.init` after extract: on a git-step exception the
handler would run `shutil.rmtree(project_name)` and `typer.Exit(1)` — but
`os.chdir(project_name)` (line 446) already ran before the failing git call,
so the handler's relative `os.path.exists(project_name)` check (line 458) is
evaluated inside the project directory, finds no `<project>/<project>`,
`rmtree` is skipped, and the project directory survives. Second component:
whether the project directory still exists. -/
def specify4AfterExtract (initOk : Bool) : Except FatalErr GitStepMsg × Bool :=
  match specify4GitStep initOk with
  | .ok m => (.ok m, true)
  | .error e => (.error e, true)

/-! ## Archive Installer: staged tree and source-root detection

A staging area is a list of named entries; each entry is a regular file (with
abstract byte content) or a directory. -/

/-- A filesystem node of the staged extraction. -/
inductive Entry where
  | file (content : Nat)
  | dir (children : List (String × Entry))

/-- Source-root detection (`specify_cli` lines 420–423 / 457 and
`specify4_cli` lines 329–337): exactly one top-level entry that is a
directory ⇒ use that directory's contents as the source root (the wrapper
itself is not installed); otherwise use the staging area itself. -/
def sourceRootEntries (items : List (String × Entry)) : List (String × Entry) :=
  match items with
  | [(_, Entry.dir cs)] => cs
  | _ => items

/-! ## Archive Installer: merge-mode copy

Embeds the merge loop of `download_and_extract_template`
(`src/specify_cli/__init__.py`, lines 426–443):

    for item in source_dir.iterdir():
        dest_path = project_path / item.name
        if item.is_dir():
            if dest_path.exists():
                ...Merging directory...
                for sub_item in item.rglob('*'):
                    if sub_item.is_file():
                        rel_path = sub_item.relative_to(item)
                        dest_file = dest_path / rel_path
                        dest_file.parent.mkdir(parents=True, exist_ok=True)
                        shutil.copy2(sub_item, dest_file)
            else:
                shutil.copytree(item, dest_path)
        else:
            if dest_path.exists(): ...Overwriting file...
            shutil.copy2(item, dest_path)
-/

/-- Find the child named `n` of a directory's entry list. -/
def lookupChild (cs : List (String × Entry)) (n : String) : Option Entry :=
  match cs.find? (fun p => p.1 == n) with
  | some p => some p.2
  | none => none

/-- Replace (or append) the child named `n`. -/
def setChild (cs : List (String × Entry)) (n : String) (e : Entry) :
    List (String × Entry) :=
  match cs with
  | [] => [(n, e)]
  | (m, x) :: rest =>
      if m == n then (n, e) :: rest else (m, x) :: setChild rest n e

/-- Follow a relative path from an entry. -/
def lookupPath : List String → Entry → Option Entry
  | [], e => some e
  | _ :: _, .file _ => none
  | n :: rest, .dir cs =>
      match lookupChild cs n with
      | some c => lookupPath rest c
      | none => none

mutual
/-- Model of `item.rglob('*')` restricted to regular files: every file in the subtree
with its relative path (paths inside a `dir` are nonempty). -/
def filesOf : Entry → List (List String × Nat)
  | .file c => [([], c)]
  | .dir cs => filesOfChildren cs

/-- Files of a directory's entry list, each path prefixed by its entry name. -/
def filesOfChildren : List (String × Entry) → List (List String × Nat)
  | [] => []
  | (n, e) :: rest =>
      (filesOf e).map (fun pc => (n :: pc.1, pc.2)) ++ filesOfChildren rest
end

/-- Test `isLead q p`: `q` is an initial segment of `p` (`q` itself included). -/
def isLead : List String → List String → Bool
  | [], _ => true
  | _ :: _, [] => false
  | a :: q, b :: p => a == b && isLead q p

/-- Model of `dest_file.parent.mkdir(parents=True, exist_ok=True)` followed by
`shutil.copy2(..., dest_file)`, rooted at an existing entry. `mkdir` through
an existing regular file raises (`none`). When `dest_file` itself exists as a
directory, `copy2` does not raise: it copies the file *into* that directory
under the source file's basename — which equals the last path component —
unless that inner entry is itself a directory (then `copyfile` raises).
Relative paths from `rglob` are nonempty, so the `[]` case is unreachable and
errors. -/
def writeFile : List String → Entry → Nat → Option Entry
  | [], _, _ => none
  | [_], .file _, _ => none
  | [n], .dir cs, c =>
      match lookupChild cs n with
      | some (.dir ds) =>
          match lookupChild ds n with
          | some (.dir _) => none
          | _ => some (.dir (setChild cs n (.dir (setChild ds n (.file c)))))
      | _ => some (.dir (setChild cs n (.file c)))
  | _ :: _ :: _, .file _, _ => none
  | n :: m :: rest, .dir cs, c =>
      match lookupChild cs n with
      | some (.file _) => none
      | some (.dir ds) =>
          match writeFile (m :: rest) (.dir ds) c with
          | some e => some (.dir (setChild cs n e))
          | none => none
      | none =>
          match writeFile (m :: rest) (.dir []) c with
          | some e => some (.dir (setChild cs n e))
          | none => none

/-- The inner `for sub_item in item.rglob('*')` loop: write each source file
at its relative path into the existing destination entry. -/
def mergeFiles (fs : List (List String × Nat)) (dest : Entry) : Option Entry :=
  match fs with
  | [] => some dest
  | (p, c) :: rest =>
      match writeFile p dest c with
      | some d => mergeFiles rest d
      | none => none

/-- Warnings the merge loop prints. -/
inductive InstallWarning where
  | mergingDir (name : String)
  | overwritingFile (name : String)
deriving DecidableEq

/-- One iteration of the merge-mode loop body for entry `(name, item)` of the
source root against the destination directory's entry list. `none` models a
raised `OSError` (which aborts with ExtractFailed). For a source file whose
same-named destination entry is a directory, `dest_path.exists()` is true, so
the warning is still printed and `shutil.copy2(item, dest_path)` copies the
file *into* that directory under its basename (`name` again), unless that
inner entry is itself a directory (then `copyfile` raises). -/
def installEntry (dest : List (String × Entry)) (name : String) (item : Entry) :
    Option (List (String × Entry) × List InstallWarning) :=
  match item with
  | .dir _ =>
      match lookupChild dest name with
      | some d =>
          match mergeFiles (filesOf item) d with
          | some d2 => some (setChild dest name d2, [.mergingDir name])
          | none => none
      | none => some (setChild dest name item, [])
  | .file c =>
      match lookupChild dest name with
      | some (.file _) =>
          some (setChild dest name (.file c), [.overwritingFile name])
      | some (.dir ds) =>
          match lookupChild ds name with
          | some (.dir _) => none
          | _ => some (setChild dest name (.dir (setChild ds name (.file c))),
              [.overwritingFile name])
      | none => some (setChild dest name (.file c), [])

/-- The whole merge-mode loop over the source root's entries. -/
def installMerge (src dest : List (String × Entry)) :
    Option (List (String × Entry) × List InstallWarning) :=
  match src with
  | [] => some (dest, [])
  | (n, e) :: rest =>
      match installEntry dest n e with
      | some (d2, ws) =>
          match installMerge rest d2 with
          | some (d3, ws2) => some (d3, ws ++ ws2)
          | none => none
      | none => none

/-- Destination directory used by the concrete merge-mode examples. -/
def demoDest : List (String × Entry) :=
  [("docs", Entry.dir [("old.md", Entry.file 1), ("keep.md", Entry.file 2)]),
   ("README", Entry.file 3)]

/-! # Theorems -/

/-- The head of a `filter` is the first element of the list satisfying the
predicate: everything listed before it fails the predicate. -/
theorem filter_first {α : Type} (p : α → Bool) :
    ∀ (l : List α) (x : α) (xs : List α), l.filter p = x :: xs →
      p x = true ∧ ∃ l₁ l₂, l = l₁ ++ x :: l₂ ∧ ∀ y ∈ l₁, p y = false := by
  intro l
  induction l with
  | nil => intro x xs h; simp at h
  | cons a as ih =>
    intro x xs h
    rw [List.filter_cons] at h
    by_cases hpa : p a = true
    · rw [if_pos hpa] at h
      injection h with h1 h2
      subst h1
      exact ⟨hpa, [], as, by simp, by simp⟩
    · rw [if_neg hpa] at h
      obtain ⟨hx, l₁, l₂, rfl, hall⟩ := ih x xs h
      refine ⟨hx, a :: l₁, l₂, rfl, ?_⟩
      intro y hy
      rcases List.mem_cons.mp hy with hya | hyl
      · subst hya; exact Bool.eq_false_iff.mpr (fun hc => hpa (hc ▸ rfl))
      · exact hall y hyl

/-- C1 (counterexample): on the claim's concrete release listing — asset
names without the `sdd-` portion of the code's filter pattern — and flavor
`claude`, the resolver does not pick `template-claude-v1.zip` as the claim
states; it fails with NotFound listing both names, because the filter
requires the substring `sdd-template-claude`. -/
theorem C1_counterexample :
    findTemplateAsset "claude"
      [⟨"template-claude-v1.zip", "u1", 1⟩, ⟨"template-gemini-v1.zip", "u2", 2⟩] =
      .notFound ["template-claude-v1.zip", "template-gemini-v1.zip"] := by
  decide

/-- C1 (amended): the direct-strategy resolver filters assets to those whose
name contains `sdd-template-<flavor>` and ends in `.zip`; zero matches fail
with NotFound listing the available asset names, and otherwise the first
matching asset in listing order is picked deterministically. In particular,
for assets `sdd-template-claude-v1.zip` / `sdd-template-gemini-v1.zip`,
flavor `claude` resolves to the former and flavor `copilot` fails with
NotFound. -/
theorem C1_direct_resolver (ai : String) (assets : List ReleaseAsset) :
    ((∀ a ∈ assets, assetMatches ai a = false) →
        findTemplateAsset ai assets = .notFound (assets.map ReleaseAsset.name))
    ∧ (∀ l₁ x l₂, assets = l₁ ++ x :: l₂ → assetMatches ai x = true →
        (∀ y ∈ l₁, assetMatches ai y = false) →
        findTemplateAsset ai assets = .ok x)
    ∧ (∀ x, findTemplateAsset ai assets = .ok x →
        assetMatches ai x = true ∧
        ∃ l₁ l₂, assets = l₁ ++ x :: l₂ ∧ ∀ y ∈ l₁, assetMatches ai y = false)
    ∧ findTemplateAsset "claude" demoAssets =
        .ok ⟨"sdd-template-claude-v1.zip", "u1", 10⟩
    ∧ findTemplateAsset "copilot" demoAssets =
        .notFound ["sdd-template-claude-v1.zip", "sdd-template-gemini-v1.zip"] := by
  refine ⟨?_, ?_, ?_, by decide, by decide⟩
  · intro h
    have hnil : assets.filter (assetMatches ai) = [] := by
      rw [List.filter_eq_nil_iff]
      intro a ha
      rw [h a ha]
      simp
    simp [findTemplateAsset, hnil]
  · intro l₁ x l₂ hsplit hx hfail
    have h1 : l₁.filter (assetMatches ai) = [] :=
      List.filter_eq_nil_iff.mpr (by intro a ha; rw [hfail a ha]; simp)
    subst hsplit
    unfold findTemplateAsset
    rw [List.filter_append, h1, List.nil_append, List.filter_cons, if_pos hx]
  · intro x hx
    unfold findTemplateAsset at hx
    rcases hfil : assets.filter (assetMatches ai) with _ | ⟨a, rest⟩
    · rw [hfil] at hx
      exact absurd hx (by simp)
    · rw [hfil] at hx
      simp only [ResolveResult.ok.injEq] at hx
      subst hx
      exact filter_first (assetMatches ai) assets a rest hfil

/-- C1 witness: the NotFound case instantiated on an empty listing, the
success-on-match case instantiated for the second-listed gemini asset, and
the first-match characterization instantiated on the demo listing. -/
theorem C1_direct_resolver_witness :
    findTemplateAsset "copilot" ([] : List ReleaseAsset) = .notFound []
    ∧ findTemplateAsset "gemini" demoAssets =
        .ok ⟨"sdd-template-gemini-v1.zip", "u2", 20⟩
    ∧ (assetMatches "claude"
          (⟨"sdd-template-claude-v1.zip", "u1", 10⟩ : ReleaseAsset) = true
        ∧ ∃ l₁ l₂, demoAssets =
            l₁ ++ (⟨"sdd-template-claude-v1.zip", "u1", 10⟩ : ReleaseAsset) :: l₂
          ∧ ∀ y ∈ l₁, assetMatches "claude" y = false) := by
  refine ⟨?_, ?_, ?_⟩
  · exact (C1_direct_resolver "copilot" []).1 (by intro a ha; simp at ha)
  · exact (C1_direct_resolver "gemini" demoAssets).2.1
      [⟨"sdd-template-claude-v1.zip", "u1", 10⟩]
      ⟨"sdd-template-gemini-v1.zip", "u2", 20⟩ [] rfl (by decide)
      (by intro y hy; simp at hy; subst hy; decide)
  · exact (C1_direct_resolver "claude" demoAssets).2.2.1 _
      (C1_direct_resolver "claude" demoAssets).2.2.2.1

/-- Iterating `down` `m` times from `i < n` lands on `(i + m) % n`. -/
theorem selLoop_down_replicate (optionKeys : List String) (m i : Nat)
    (hi : i < optionKeys.length) :
    selLoop optionKeys (List.replicate m Key.down) i =
      .waiting ((i + m) % optionKeys.length) := by
  induction m generalizing i with
  | zero => simp [selLoop, Nat.mod_eq_of_lt hi]
  | succ m ih =>
    rw [List.replicate_succ]
    have hn : 0 < optionKeys.length := Nat.lt_of_le_of_lt (Nat.zero_le i) hi
    have h2 := ih (downStep optionKeys.length i) (Nat.mod_lt _ hn)
    have harg : i + 1 + m = i + (m + 1) := by omega
    show selLoop optionKeys (List.replicate m Key.down)
        (downStep optionKeys.length i) = _
    rw [h2, downStep, Nat.mod_add_mod, harg]

/-- C7: pressing `down` exactly N times (N = option count) returns the
highlighted index to its starting value; a single `down` moves the index to
`(i+1) mod N` and a single `up` to `(i-1) mod N` (wrapping at both ends),
including the trivial wraparound for a one-entry option set. -/
theorem C7_wraparound (optionKeys : List String) (i : Nat)
    (hi : i < optionKeys.length) :
    selLoop optionKeys (List.replicate optionKeys.length Key.down) i = .waiting i
    ∧ selLoop optionKeys [Key.down] i =
        .waiting ((i + 1) % optionKeys.length)
    ∧ selLoop optionKeys [Key.up] i =
        .waiting ((i + (optionKeys.length - 1)) % optionKeys.length)
    ∧ (i = optionKeys.length - 1 → selLoop optionKeys [Key.down] i = .waiting 0)
    ∧ (i = 0 → selLoop optionKeys [Key.up] i = .waiting (optionKeys.length - 1))
    ∧ (optionKeys.length = 1 → selLoop optionKeys [Key.down] i = .waiting i) := by
  have hn : 0 < optionKeys.length := Nat.lt_of_le_of_lt (Nat.zero_le i) hi
  have hdown : selLoop optionKeys [Key.down] i =
      .waiting ((i + 1) % optionKeys.length) := rfl
  have hup : selLoop optionKeys [Key.up] i =
      .waiting ((i + (optionKeys.length - 1)) % optionKeys.length) := rfl
  refine ⟨?_, hdown, hup, ?_, ?_, ?_⟩
  · rw [selLoop_down_replicate optionKeys optionKeys.length i hi,
      Nat.add_mod_right, Nat.mod_eq_of_lt hi]
  · intro hlast
    rw [hdown, hlast, Nat.sub_add_cancel hn, Nat.mod_self]
  · intro h0
    rw [hup, h0, Nat.zero_add, Nat.mod_eq_of_lt (by omega)]
  · intro h1
    rw [hdown, h1]
    have hi0 : i = 0 := by omega
    rw [hi0]

/-- C7 witness: a three-entry menu starting at index 1 returns to index 1
after three `down` presses, with the single-step law instantiated. -/
theorem C7_wraparound_witness :
    selLoop ["claude", "gemini", "copilot"]
      (List.replicate 3 Key.down) 1 = .waiting 1
    ∧ selLoop ["claude", "gemini", "copilot"] [Key.down] 1 = .waiting 2 := by
  have h := C7_wraparound ["claude", "gemini", "copilot"] 1 (by decide)
  exact ⟨h.1, by simpa using h.2.1⟩

/-- If no `enter` occurs before position `j` and the event at `j` cancels,
the loop cancels. -/
theorem selLoop_cancel_of_no_enter (optionKeys : List String) :
    ∀ (pre : List Key) (k : Key) (post : List Key) (i : Nat),
      isCancelKey k = true → (Key.enter ∉ pre) →
      selLoop optionKeys (pre ++ k :: post) i = .cancelled := by
  intro pre
  induction pre with
  | nil =>
    intro k post i hk _
    cases k <;> simp_all [selLoop, isCancelKey]
  | cons a as ih =>
    intro k post i hk hpre
    have ha : a ≠ Key.enter := by
      intro hc; exact hpre (hc ▸ List.mem_cons_self a as)
    have hrest : Key.enter ∉ as := fun hc => hpre (List.mem_cons_of_mem a hc)
    cases a with
    | up => exact ih k post _ hk hrest
    | down => exact ih k post _ hk hrest
    | enter => exact absurd rfl ha
    | escape => simp [selLoop]
    | interrupt => simp [selLoop]
    | char c => exact ih k post _ hk hrest

/-- C8: whenever an escape or interrupt event occurs before any enter event,
the menu never returns a selection — it signals cancellation (the
`typer.Exit(1)` cancellation error). -/
theorem C8_cancel_before_enter (optionKeys : List String) (keys : List Key)
    (i : Nat)
    (h : ∃ pre k post, keys = pre ++ k :: post ∧ isCancelKey k = true ∧
        Key.enter ∉ pre) :
    selLoop optionKeys keys i = .cancelled ∧
      ∀ s, selLoop optionKeys keys i ≠ .selected s := by
  obtain ⟨pre, k, post, rfl, hk, hpre⟩ := h
  have hc := selLoop_cancel_of_no_enter optionKeys pre k post i hk hpre
  exact ⟨hc, fun s hs => by rw [hc] at hs; exact SelOutcome.noConfusion hs⟩

/-- C8 witness: navigating down twice and then pressing escape cancels the
three-entry menu. -/
theorem C8_cancel_witness :
    selLoop ["claude", "gemini", "copilot"]
      [Key.down, Key.down, Key.escape, Key.enter] 0 = .cancelled := by
  have h := C8_cancel_before_enter ["claude", "gemini", "copilot"]
    [Key.down, Key.down, Key.escape, Key.enter] 0
    ⟨[Key.down, Key.down], Key.escape, [Key.enter], rfl, rfl, by decide⟩
  exact h.1

/-- C9: a key event that is neither up, down, enter, escape nor interrupt (a
literal character) leaves the highlighted index and all selection state
unchanged, and the menu keeps processing the remaining key events. -/
theorem C9_other_keys_ignored (optionKeys : List String) (c : Char)
    (rest : List Key) (i : Nat) :
    selLoop optionKeys (Key.char c :: rest) i = selLoop optionKeys rest i := by
  rfl

/-- The streaming loop yields `none` exactly when a transport error occurs,
and otherwise the accumulated file plus every remaining chunk. -/
theorem streamChunks_spec (events : List StreamEvent) :
    ∀ acc, streamChunks events acc =
      if hasTransportError events then none
      else some (acc ++ allChunkBytes events) := by
  induction events with
  | nil => intro acc; simp [streamChunks, hasTransportError, allChunkBytes]
  | cons e rest ih =>
    intro acc
    cases e with
    | chunk b =>
        simp [streamChunks, hasTransportError, allChunkBytes, ih,
          List.append_assoc]
    | transportError => simp [streamChunks, hasTransportError]

/-- C6: a transport error while streaming the chosen asset fails with
DownloadFailed and leaves no file (the partial file is deleted); on the happy
path the file at the known location holds exactly the asset's complete
bytes — never a truncated file, and not zero-byte unless the asset itself is
empty. -/
theorem C6_download_stream (events : List StreamEvent) :
    (hasTransportError events = true →
        downloadAssetStream events = (.failed, none))
    ∧ (hasTransportError events = false →
        downloadAssetStream events =
          (.downloaded (allChunkBytes events), some (allChunkBytes events))
        ∧ (allChunkBytes events ≠ [] →
            (downloadAssetStream events).2 ≠ some [])) := by
  have hs := streamChunks_spec events []
  constructor
  · intro herr
    rw [herr] at hs
    simp at hs
    simp [downloadAssetStream, hs]
  · intro hok
    rw [hok] at hs
    simp at hs
    have hd : downloadAssetStream events =
        (.downloaded (allChunkBytes events), some (allChunkBytes events)) := by
      simp [downloadAssetStream, hs]
    refine ⟨hd, ?_⟩
    intro hne
    rw [hd]
    simp
    intro hc
    exact hne hc

/-- C6 witness: a stream that errors after one chunk fails and deletes the
file; an error-free two-chunk stream leaves the full bytes. -/
theorem C6_download_stream_witness :
    downloadAssetStream
        [.chunk [1, 2], .transportError, .chunk [3]] = (.failed, none)
    ∧ downloadAssetStream [.chunk [1, 2], .chunk [3]] =
        (.downloaded [1, 2, 3], some [1, 2, 3]) := by
  refine ⟨(C6_download_stream _).1 rfl, ?_⟩
  have h := ((C6_download_stream [.chunk [1, 2], .chunk [3]]).2 rfl).1
  simpa using h

/-- C5: a create-mode `init` whose target path already exists fails with
AlreadyExists, and its effect trace is empty — no network request was made
and the filesystem at the path was not touched. -/
theorem C5_create_exists_fails_early (env : InitEnv)
    (h : env.pathExists = true) :
    (initCreate env).1 = .error .alreadyExists ∧ (initCreate env).2 = [] := by
  simp [initCreate, h]

/-- C5 witness: concrete environment with an occupied target path (and an
otherwise fully viable run) stops with AlreadyExists and no effects. -/
theorem C5_create_exists_fails_early_witness :
    (initCreate ⟨true, true, false, true, [.chunk [1]]⟩).1 =
        .error .alreadyExists
    ∧ (initCreate ⟨true, true, false, true, [.chunk [1]]⟩).2 = [] :=
  C5_create_exists_fails_early ⟨true, true, false, true, [.chunk [1]]⟩ rfl

/-- C4 (counterexample): in `specify4_cli`, a failing `git init` (modelled by
`initOk = false`) is fatal — the run reports failure — contradicting "the
Repository Initializer step is never fatal to overall success". The
except-handler's cleanup is skipped (its relative existence check runs after
`os.chdir` into the project), so the project directory is left in place. -/
theorem C4_counterexample :
    specify4AfterExtract false = (.error .repoInitFatal, true) := rfl

/-- C4 (amended): in `specify_cli`, the repository-initializer step is never
fatal: every combination of flags and probe results yields a non-error
outcome; an existing work tree is a reported no-op, an unavailable git tool a
soft warning, and a failed initialization a non-fatal warning. In
`specify4_cli`, by contrast, a failed initialization is fatal; the handler's
cleanup is skipped (relative path check after `os.chdir`), so the project
directory is left in place. -/
theorem C4_git_never_fatal (noGit isRepo gitAvailable initOk : Bool) :
    (∃ m, specifyGitStep noGit isRepo gitAvailable initOk = .ok m)
    ∧ (noGit = false → isRepo = true →
        specifyGitStep noGit isRepo gitAvailable initOk =
          .ok .existingRepoDetected)
    ∧ (noGit = false → isRepo = false → gitAvailable = false →
        specifyGitStep noGit isRepo gitAvailable initOk =
          .ok .gitUnavailableWarning)
    ∧ (noGit = false → isRepo = false → gitAvailable = true → initOk = false →
        specifyGitStep noGit isRepo gitAvailable initOk =
          .ok .initFailedWarning)
    ∧ specify4AfterExtract false = (.error .repoInitFatal, true) := by
  refine ⟨?_, ?_, ?_, ?_, rfl⟩
  · cases noGit <;> cases isRepo <;> cases gitAvailable <;> cases initOk <;>
      exact ⟨_, rfl⟩
  · intro h1 h2; subst h1; subst h2; rfl
  · intro h1 h2 h3; subst h1; subst h2; subst h3; rfl
  · intro h1 h2 h3 h4; subst h1; subst h2; subst h3; subst h4; rfl

/-- C4 witness: the three warning/no-op branches instantiated concretely. -/
theorem C4_git_never_fatal_witness :
    specifyGitStep false false true false = .ok .initFailedWarning
    ∧ specifyGitStep false false false true = .ok .gitUnavailableWarning
    ∧ specifyGitStep false true true true = .ok .existingRepoDetected :=
  ⟨(C4_git_never_fatal false false true false).2.2.2.1 rfl rfl rfl rfl,
   (C4_git_never_fatal false false false true).2.2.1 rfl rfl rfl,
   (C4_git_never_fatal false true true true).2.1 rfl rfl⟩

/-- C2: the installer's source root is the wrapper directory's contents when
the staging area has exactly one top-level entry and it is a directory; with
two or more top-level entries, or a single top-level file, the source root is
the staging area itself. -/
theorem C2_source_root (items : List (String × Entry)) (n : String)
    (cs : List (String × Entry)) (c : Nat) :
    sourceRootEntries [(n, Entry.dir cs)] = cs
    ∧ (2 ≤ items.length → sourceRootEntries items = items)
    ∧ sourceRootEntries [(n, Entry.file c)] = [(n, Entry.file c)] := by
  refine ⟨rfl, ?_, rfl⟩
  intro h2
  rcases items with _ | ⟨a, _ | ⟨b, rest⟩⟩
  · simp at h2
  · simp at h2
  · rcases a with ⟨s, e⟩
    cases e <;> rfl

/-- C2 witness: the three layouts instantiated concretely. -/
theorem C2_source_root_witness :
    sourceRootEntries [("a", Entry.dir [("README", Entry.file 1)])] =
      [("README", Entry.file 1)]
    ∧ sourceRootEntries [("a", Entry.file 1), ("b", Entry.dir [])] =
        [("a", Entry.file 1), ("b", Entry.dir [])]
    ∧ sourceRootEntries [("a", Entry.file 7)] = [("a", Entry.file 7)] := by
  have h := C2_source_root [("a", Entry.file 1), ("b", Entry.dir [])] "a"
    [("README", Entry.file 1)] 7
  exact ⟨h.1, h.2.1 (by simp), h.2.2⟩

/-- After `setChild cs n e`, looking up `n` finds `e`. -/
theorem lookupChild_setChild_same (cs : List (String × Entry)) (n : String)
    (e : Entry) : lookupChild (setChild cs n e) n = some e := by
  induction cs with
  | nil => simp [setChild, lookupChild]
  | cons a rest ih =>
    rcases a with ⟨m, x⟩
    by_cases hmn : (m == n) = true
    · simp [setChild, hmn, lookupChild]
    · have hf : (m == n) = false := by simpa using hmn
      simp only [setChild, hf, Bool.false_eq_true, if_false]
      simp only [lookupChild, List.find?, hf]
      exact ih

/-- Update `setChild cs n e` leaves lookups of other names unchanged. -/
theorem lookupChild_setChild_other (cs : List (String × Entry)) (n m : String)
    (e : Entry) (h : m ≠ n) :
    lookupChild (setChild cs n e) m = lookupChild cs m := by
  have hnm : (n == m) = false := beq_eq_false_iff_ne.mpr (fun hc => h hc.symm)
  induction cs with
  | nil => simp [setChild, lookupChild, List.find?, hnm]
  | cons a rest ih =>
    rcases a with ⟨k, x⟩
    by_cases hkn : (k == n) = true
    · have hk : k = n := by simpa using hkn
      subst hk
      simp [setChild, lookupChild, List.find?, hnm]
    · have hkn' : (k == n) = false := by simpa using hkn
      by_cases hkm : (k == m) = true
      · simp [setChild, hkn', lookupChild, List.find?, hkm]
      · have hkm' : (k == m) = false := by simpa using hkm
        simp only [setChild, hkn', Bool.false_eq_true, if_false]
        simp only [lookupChild, List.find?, hkm']
        exact ih


/-- A successful `writeFile p` whose target entry at `p` was not an existing
directory leaves the written content at `p` (parent directories having been
created as needed). When the entry at `p` is a directory, `copy2` instead
drops the file inside it, so the hypothesis is necessary. -/
theorem writeFile_lands : ∀ (p : List String) (d : Entry) (c : Nat) (d' : Entry),
    writeFile p d c = some d' →
    (∀ ds, lookupPath p d ≠ some (Entry.dir ds)) →
    lookupPath p d' = some (.file c) := by
  intro p
  induction p with
  | nil => intro d c d' h _; simp [writeFile] at h
  | cons n rest ih =>
    intro d c d' h hnc
    cases rest with
    | nil =>
      cases d with
      | file v => simp [writeFile] at h
      | dir cs =>
        rcases hl : lookupChild cs n with _ | e
        · simp only [writeFile, hl, Option.some.injEq] at h
          subst h
          simp [lookupPath, lookupChild_setChild_same]
        · cases e with
          | file v =>
            simp only [writeFile, hl, Option.some.injEq] at h
            subst h
            simp [lookupPath, lookupChild_setChild_same]
          | dir ds =>
            exfalso
            exact hnc ds (by simp [lookupPath, hl])
    | cons m rest2 =>
      cases d with
      | file v => simp [writeFile] at h
      | dir cs =>
        rcases hl : lookupChild cs n with _ | e
        · simp only [writeFile, hl] at h
          rcases hw : writeFile (m :: rest2) (.dir []) c with _ | e2
          · simp [hw] at h
          · simp only [hw, Option.some.injEq] at h
            subst h
            simp only [lookupPath, lookupChild_setChild_same]
            refine ih (.dir []) c e2 hw ?_
            intro ds2 h2
            simp [lookupPath, lookupChild, List.find?] at h2
        · cases e with
          | file v => simp [writeFile, hl] at h
          | dir ds =>
            simp only [writeFile, hl] at h
            rcases hw : writeFile (m :: rest2) (.dir ds) c with _ | e2
            · simp [hw] at h
            · simp only [hw, Option.some.injEq] at h
              subst h
              simp only [lookupPath, lookupChild_setChild_same]
              refine ih (.dir ds) c e2 hw ?_
              intro ds2 h2
              refine hnc ds2 ?_
              simp only [lookupPath, hl]
              exact h2

/-- A successful `writeFile p` leaves every path `q` that neither leads into
`p` nor is led into by `p` exactly as it was: the write touches only the
written branch (including, on a collision, the entry just below `p`). -/
theorem writeFile_untouched :
    ∀ (p : List String) (d : Entry) (c : Nat) (d' : Entry) (q : List String),
    writeFile p d c = some d' → isLead q p = false → isLead p q = false →
    lookupPath q d' = lookupPath q d := by
  intro p
  induction p with
  | nil => intro d c d' q h _ _; simp [writeFile] at h
  | cons n rest ih =>
    intro d c d' q h hqp hpq
    cases rest with
    | nil =>
      cases d with
      | file v => simp [writeFile] at h
      | dir cs =>
        cases q with
        | nil => simp [isLead] at hqp
        | cons a q' =>
          by_cases han : (a == n) = true
          · have ha : a = n := by simpa using han
            subst ha
            exfalso
            simp [isLead] at hpq
          · have ha : a ≠ n := by simpa using han
            rcases hl : lookupChild cs n with _ | e
            · simp only [writeFile, hl, Option.some.injEq] at h
              subst h
              simp [lookupPath, lookupChild_setChild_other cs n a _ ha]
            · cases e with
              | file v =>
                simp only [writeFile, hl, Option.some.injEq] at h
                subst h
                simp [lookupPath, lookupChild_setChild_other cs n a _ ha]
              | dir ds =>
                rcases hg : lookupChild ds n with _ | g
                · simp only [writeFile, hl, hg, Option.some.injEq] at h
                  subst h
                  simp [lookupPath, lookupChild_setChild_other cs n a _ ha]
                · cases g with
                  | file w =>
                    simp only [writeFile, hl, hg, Option.some.injEq] at h
                    subst h
                    simp [lookupPath, lookupChild_setChild_other cs n a _ ha]
                  | dir gs => simp [writeFile, hl, hg] at h
    | cons m rest2 =>
      cases d with
      | file v => simp [writeFile] at h
      | dir cs =>
        rcases hl : lookupChild cs n with _ | e
        · simp only [writeFile, hl] at h
          rcases hw : writeFile (m :: rest2) (.dir []) c with _ | e2
          · simp [hw] at h
          · simp only [hw, Option.some.injEq] at h
            subst h
            cases q with
            | nil => simp [isLead] at hqp
            | cons a q' =>
              by_cases han : (a == n) = true
              · have ha : a = n := by simpa using han
                subst ha
                have hqp' : isLead q' (m :: rest2) = false := by
                  simpa [isLead] using hqp
                have hpq' : isLead (m :: rest2) q' = false := by
                  simpa [isLead] using hpq
                have hrec := ih (.dir []) c e2 q' hw hqp' hpq'
                cases q' with
                | nil => simp [isLead] at hqp'
                | cons b q'' =>
                  simp only [lookupPath, lookupChild_setChild_same, hl, hrec]
                  simp [lookupPath, lookupChild, List.find?]
              · have ha : a ≠ n := by simpa using han
                simp [lookupPath, lookupChild_setChild_other cs n a _ ha]
        · cases e with
          | file v => simp [writeFile, hl] at h
          | dir ds =>
            simp only [writeFile, hl] at h
            rcases hw : writeFile (m :: rest2) (.dir ds) c with _ | e2
            · simp [hw] at h
            · simp only [hw, Option.some.injEq] at h
              subst h
              cases q with
              | nil => simp [isLead] at hqp
              | cons a q' =>
                by_cases han : (a == n) = true
                · have ha : a = n := by simpa using han
                  subst ha
                  have hqp' : isLead q' (m :: rest2) = false := by
                    simpa [isLead] using hqp
                  have hpq' : isLead (m :: rest2) q' = false := by
                    simpa [isLead] using hpq
                  have hrec := ih (.dir ds) c e2 q' hw hqp' hpq'
                  simp [lookupPath, lookupChild_setChild_same, hl, hrec]
                · have ha : a ≠ n := by simpa using han
                  simp [lookupPath, lookupChild_setChild_other cs n a _ ha]

/-- If a regular file sits at `q`, strictly above the write path `p`
(`q` a proper initial segment of `p`), then `writeFile p` errors: `mkdir`
through an existing regular file fails. -/
theorem writeFile_file_above :
    ∀ (q p : List String) (d : Entry) (c v : Nat),
    lookupPath q d = some (.file v) → isLead q p = true → q ≠ p →
    writeFile p d c = none := by
  intro q
  induction q with
  | nil =>
    intro p d c v hlook hlead hne
    simp only [lookupPath, Option.some.injEq] at hlook
    subst hlook
    cases p with
    | nil => exact absurd rfl hne
    | cons n rest =>
      cases rest with
      | nil => rfl
      | cons m r2 => rfl
  | cons a q' ih =>
    intro p d c v hlook hlead hne
    cases d with
    | file w => simp [lookupPath] at hlook
    | dir cs =>
      rcases hl : lookupChild cs a with _ | ch
      · simp [lookupPath, hl] at hlook
      · cases p with
        | nil => simp [isLead] at hlead
        | cons b p' =>
          have hab : a = b ∧ isLead q' p' = true := by
            simpa [isLead] using hlead
          obtain ⟨haeq, hlead'⟩ := hab
          subst haeq
          cases ch with
          | file w =>
            cases q' with
            | cons x xs => simp [lookupPath, hl] at hlook
            | nil =>
              cases p' with
              | nil => exact absurd rfl hne
              | cons m r2 => simp [writeFile, hl]
          | dir ds =>
            have hlook' : lookupPath q' (.dir ds) = some (.file v) := by
              simpa [lookupPath, hl] using hlook
            cases p' with
            | nil =>
              cases q' with
              | nil => simp [lookupPath] at hlook'
              | cons x xs => simp [isLead] at hlead'
            | cons m r2 =>
              have hq'ne : q' ≠ m :: r2 := fun hc => hne (by rw [hc])
              have hrec := ih (m :: r2) (.dir ds) c v hlook' hlead' hq'ne
              simp [writeFile, hl, hrec]

/-- Along the path of an existing regular file, every proper initial segment
is an existing directory. -/
theorem lookupPath_dir_above :
    ∀ (p q : List String) (d : Entry) (v : Nat),
    lookupPath q d = some (.file v) → isLead p q = true → p ≠ q →
    ∃ ds, lookupPath p d = some (Entry.dir ds) := by
  intro p
  induction p with
  | nil =>
    intro q d v hq hlead hne
    cases q with
    | nil => exact absurd rfl hne
    | cons a q' =>
      cases d with
      | file w => simp [lookupPath] at hq
      | dir cs => exact ⟨cs, rfl⟩
  | cons a p' ih =>
    intro q d v hq hlead hne
    cases q with
    | nil => simp [isLead] at hlead
    | cons b q' =>
      have hab : a = b ∧ isLead p' q' = true := by
        simpa [isLead] using hlead
      obtain ⟨haeq, hlead'⟩ := hab
      subst haeq
      cases d with
      | file w => simp [lookupPath] at hq
      | dir cs =>
        rcases hl : lookupChild cs a with _ | ch
        · simp [lookupPath, hl] at hq
        · have hq' : lookupPath q' ch = some (.file v) := by
            simpa [lookupPath, hl] using hq
          have hne' : p' ≠ q' := fun hc => hne (by rw [hc])
          obtain ⟨ds, hds⟩ := ih q' ch v hq' hlead' hne'
          exact ⟨ds, by simp [lookupPath, hl, hds]⟩

/-- A write whose own target was not an existing directory keeps the
"no existing directory at this path" property of every other relevant path. -/
theorem writeFile_keeps_nc (p : List String) (d : Entry) (c : Nat) (d' : Entry)
    (q : List String)
    (hw : writeFile p d c = some d')
    (hncp : ∀ ds, lookupPath p d ≠ some (Entry.dir ds))
    (hncq : ∀ ds, lookupPath q d ≠ some (Entry.dir ds))
    (hqp : q ≠ p → isLead q p = false)
    (hpq : q ≠ p → isLead p q = false) :
    ∀ ds, lookupPath q d' ≠ some (Entry.dir ds) := by
  intro ds hds
  by_cases heq : q = p
  · subst heq
    rw [writeFile_lands q d c d' hw hncp] at hds
    simp at hds
  · rw [writeFile_untouched p d c d' q hw (hqp heq) (hpq heq)] at hds
    exact hncq ds hds

/-- The merge loop preserves every pre-existing file whose path is not among
the copied relative paths, provided no copied path collides with an existing
directory and the copied paths form an antichain under `isLead` (as the file
paths of an actual source tree do). -/
theorem mergeFiles_preserve :
    ∀ (fs : List (List String × Nat)) (d d' : Entry) (q : List String) (v : Nat),
    mergeFiles fs d = some d' → lookupPath q d = some (.file v) →
    (∀ pc ∈ fs, pc.1 ≠ q) →
    (∀ pc ∈ fs, ∀ ds, lookupPath pc.1 d ≠ some (Entry.dir ds)) →
    (∀ pc1 ∈ fs, ∀ pc2 ∈ fs, pc1.1 ≠ pc2.1 → isLead pc1.1 pc2.1 = false) →
    lookupPath q d' = some (.file v) := by
  intro fs
  induction fs with
  | nil =>
    intro d d' q v h hlook _ _ _
    simp only [mergeFiles, Option.some.injEq] at h
    subst h
    exact hlook
  | cons pc rest ih =>
    intro d d' q v h hlook hne hnc hanti
    rcases pc with ⟨p, c⟩
    rcases hw : writeFile p d c with _ | d1
    · simp [mergeFiles, hw] at h
    · simp only [mergeFiles, hw] at h
      have hmemh : (p, c) ∈ (p, c) :: rest := List.mem_cons_self _ _
      have hncp := hnc (p, c) hmemh
      have hpq : p ≠ q := by
        have := hne (p, c) hmemh
        simpa using this
      have hqlp : isLead q p = false := by
        by_cases hcase : isLead q p = true
        · exfalso
          have hcontra := writeFile_file_above q p d c v hlook hcase
            (fun hc => hpq hc.symm)
          rw [hcontra] at hw
          cases hw
        · simpa using hcase
      have hplq : isLead p q = false := by
        by_cases hcase : isLead p q = true
        · exfalso
          obtain ⟨ds, hds⟩ := lookupPath_dir_above p q d v hlook hcase hpq
          exact hncp ds hds
        · simpa using hcase
      have hkeep := writeFile_untouched p d c d1 q hw hqlp hplq
      refine ih d1 d' q v h (by rw [hkeep]; exact hlook)
        (fun pc2 hm => hne pc2 (List.mem_cons_of_mem _ hm)) ?_
        (fun pc1 h1 pc2 h2 => hanti pc1 (List.mem_cons_of_mem _ h1) pc2
          (List.mem_cons_of_mem _ h2))
      intro pc2 hm
      refine writeFile_keeps_nc p d c d1 pc2.1 hw hncp
        (hnc pc2 (List.mem_cons_of_mem _ hm)) ?_ ?_
      · intro hne2
        exact hanti pc2 (List.mem_cons_of_mem _ hm) (p, c) hmemh hne2
      · intro hne2
        exact hanti (p, c) hmemh pc2 (List.mem_cons_of_mem _ hm)
          (fun hc => hne2 hc.symm)

/-- Every source file lands at its relative path after the merge loop,
assuming, as for the file paths of an actual source directory tree, that the
relative paths are distinct, none collides with an existing destination
directory, and none is an initial segment of another. -/
theorem mergeFiles_lands :
    ∀ (fs : List (List String × Nat)) (d d' : Entry) (p : List String) (c : Nat),
    mergeFiles fs d = some d' → (p, c) ∈ fs → (fs.map Prod.fst).Nodup →
    (∀ pc ∈ fs, ∀ ds, lookupPath pc.1 d ≠ some (Entry.dir ds)) →
    (∀ pc1 ∈ fs, ∀ pc2 ∈ fs, pc1.1 ≠ pc2.1 → isLead pc1.1 pc2.1 = false) →
    lookupPath p d' = some (.file c) := by
  intro fs
  induction fs with
  | nil => intro d d' p c _ hm _ _ _; simp at hm
  | cons pc0 rest ih =>
    intro d d' p c h hm hnd hnc hanti
    rcases pc0 with ⟨p0, c0⟩
    rcases hw : writeFile p0 d c0 with _ | d1
    · simp [mergeFiles, hw] at h
    · simp only [mergeFiles, hw] at h
      simp only [List.map_cons, List.nodup_cons] at hnd
      have hmemh : (p0, c0) ∈ (p0, c0) :: rest := List.mem_cons_self _ _
      have hncp := hnc (p0, c0) hmemh
      have hncrest : ∀ pc2 ∈ rest, ∀ ds,
          lookupPath pc2.1 d1 ≠ some (Entry.dir ds) := by
        intro pc2 hm2
        refine writeFile_keeps_nc p0 d c0 d1 pc2.1 hw hncp
          (hnc pc2 (List.mem_cons_of_mem _ hm2)) ?_ ?_
        · intro hne2
          exact hanti pc2 (List.mem_cons_of_mem _ hm2) (p0, c0) hmemh hne2
        · intro hne2
          exact hanti (p0, c0) hmemh pc2 (List.mem_cons_of_mem _ hm2)
            (fun hc => hne2 hc.symm)
      have hantirest : ∀ pc1 ∈ rest, ∀ pc2 ∈ rest,
          pc1.1 ≠ pc2.1 → isLead pc1.1 pc2.1 = false :=
        fun pc1 h1 pc2 h2 => hanti pc1 (List.mem_cons_of_mem _ h1) pc2
          (List.mem_cons_of_mem _ h2)
      rcases List.mem_cons.mp hm with heq | hmem
      · have hp : p = p0 := congrArg Prod.fst heq
        have hc : c = c0 := congrArg Prod.snd heq
        subst hp
        subst hc
        have hland := writeFile_lands p d c d1 hw hncp
        refine mergeFiles_preserve rest d1 d' p c h hland ?_ hncrest hantirest
        intro pc2 hmr hcq
        exact hnd.1 (hcq ▸ List.mem_map_of_mem Prod.fst hmr)
      · exact ih d1 d' p c h hmem hnd.2 hncrest hantirest

/-- A path absent at the destination that neither leads into any copied
relative path nor extends one is still absent after the merge loop: the
merge creates entries only along the copied files' paths (and, on a
collision, just below them). -/
theorem mergeFiles_absent :
    ∀ (fs : List (List String × Nat)) (d d' : Entry) (q : List String),
    mergeFiles fs d = some d' → lookupPath q d = none →
    (∀ pc ∈ fs, isLead q pc.1 = false) →
    (∀ pc ∈ fs, isLead pc.1 q = false) →
    lookupPath q d' = none := by
  intro fs
  induction fs with
  | nil =>
    intro d d' q h habs _ _
    simp only [mergeFiles, Option.some.injEq] at h
    subst h
    exact habs
  | cons pc rest ih =>
    intro d d' q h habs hnol hnor
    rcases pc with ⟨p, c⟩
    rcases hw : writeFile p d c with _ | d1
    · simp [mergeFiles, hw] at h
    · simp only [mergeFiles, hw] at h
      have h1 := hnol (p, c) (List.mem_cons_self _ _)
      have h2 := hnor (p, c) (List.mem_cons_self _ _)
      have hkeep := writeFile_untouched p d c d1 q hw h1 h2
      exact ih d1 d' q h (by rw [hkeep]; exact habs)
        (fun pc2 hm => hnol pc2 (List.mem_cons_of_mem _ hm))
        (fun pc2 hm => hnor pc2 (List.mem_cons_of_mem _ hm))

/-- C3 (counterexample): when a copied file's relative path collides with an
existing directory at the destination — dest `docs/sub` a directory, source
`docs/sub` a file — the merge does not fail: `shutil.copy2` drops the file
into the directory as `docs/sub/sub`. The source file therefore does not
land at its relative path, so the source directory's file contents are not
"recursively copied … preserving relative paths" as the claim states. -/
theorem C3_counterexample :
    installEntry [("docs", Entry.dir [("sub", Entry.dir [])])] "docs"
        (Entry.dir [("sub", Entry.file 7)]) =
      some ([("docs", Entry.dir [("sub", Entry.dir [("sub", Entry.file 7)])])],
        [InstallWarning.mergingDir "docs"])
    ∧ lookupPath ["sub"]
        (Entry.dir [("sub", Entry.dir [("sub", Entry.file 7)])]) ≠
        some (Entry.file 7)
    ∧ lookupPath ["sub", "sub"]
        (Entry.dir [("sub", Entry.dir [("sub", Entry.file 7)])]) =
        some (Entry.file 7) := by
  refine ⟨rfl, ?_, rfl⟩
  intro hcontra
  simp [lookupPath, lookupChild, List.find?] at hcontra

/-- C3 (amended): merge-mode install, per entry of the source root. (a) A
same-named destination file is overwritten and a warning is emitted. (b) Into
a same-named existing destination entry, the source directory's file
contents are copied recursively; provided the copied relative paths are
distinct, none collides with an existing directory inside the destination
entry, and none is an initial segment of another (all three automatic for an
actual source tree merged without type collisions), each file lands at its
relative path, and every pre-existing destination file at a path with no
same-named counterpart among the copied files is untouched. On a collision,
`shutil.copy2` instead drops the file inside the existing directory under
its own basename. (c) An entry with no same-named destination counterpart is
copied straight in. -/
theorem C3_merge_mode_install (dest : List (String × Entry)) (name : String) :
    (∀ v c, lookupChild dest name = some (.file v) →
        installEntry dest name (.file c) =
          some (setChild dest name (.file c),
            [InstallWarning.overwritingFile name]))
    ∧ (∀ srcCs d0 d2 ws, lookupChild dest name = some d0 →
        installEntry dest name (.dir srcCs) = some (d2, ws) →
        ws = [InstallWarning.mergingDir name]
        ∧ ∃ d1, lookupChild d2 name = some d1
          ∧ (((filesOf (Entry.dir srcCs)).map Prod.fst).Nodup →
             (∀ pc ∈ filesOf (Entry.dir srcCs), ∀ ds,
                lookupPath pc.1 d0 ≠ some (Entry.dir ds)) →
             (∀ pc1 ∈ filesOf (Entry.dir srcCs),
                ∀ pc2 ∈ filesOf (Entry.dir srcCs),
                pc1.1 ≠ pc2.1 → isLead pc1.1 pc2.1 = false) →
             (∀ p c, (p, c) ∈ filesOf (Entry.dir srcCs) →
                lookupPath p d1 = some (.file c))
             ∧ (∀ q v, lookupPath q d0 = some (.file v) →
                 (∀ pc ∈ filesOf (Entry.dir srcCs), pc.1 ≠ q) →
                 lookupPath q d1 = some (.file v))))
    ∧ (∀ item, lookupChild dest name = none →
        installEntry dest name item = some (setChild dest name item, [])) := by
  refine ⟨?_, ?_, ?_⟩
  · intro v c hl
    simp [installEntry, hl]
  · intro srcCs d0 d2 ws hl hrun
    simp only [installEntry, hl] at hrun
    rcases hm : mergeFiles (filesOf (Entry.dir srcCs)) d0 with _ | d1
    · simp [hm] at hrun
    · simp only [hm, Option.some.injEq, Prod.mk.injEq] at hrun
      obtain ⟨hd2, hws⟩ := hrun
      subst hd2
      subst hws
      refine ⟨rfl, d1, lookupChild_setChild_same dest name d1, ?_⟩
      intro hnd hnc hanti
      constructor
      · intro p c hmem
        exact mergeFiles_lands (filesOf (Entry.dir srcCs)) d0 d1 p c hm hmem
          hnd hnc hanti
      · intro q v hq hne
        exact mergeFiles_preserve (filesOf (Entry.dir srcCs)) d0 d1 q v hm hq
          hne hnc hanti
  · intro item hl
    cases item with
    | file c => simp [installEntry, hl]
    | dir cs => simp [installEntry, hl]

/-- C3 witness: on the concrete destination `demoDest` — overwrite of the
existing file `README` with its warning; merge of a source `docs` directory
into the existing `docs` directory, with the copied `new.md` landing and the
pre-existing `keep.md` preserved; and a fresh entry copied straight in. -/
theorem C3_merge_mode_install_witness :
    installEntry demoDest "README" (Entry.file 9) =
      some (setChild demoDest "README" (Entry.file 9),
        [InstallWarning.overwritingFile "README"])
    ∧ (∃ d1, lookupChild
          [("docs", Entry.dir [("old.md", Entry.file 1),
              ("keep.md", Entry.file 2), ("new.md", Entry.file 7)]),
           ("README", Entry.file 3)] "docs" = some d1
        ∧ lookupPath ["new.md"] d1 = some (Entry.file 7)
        ∧ lookupPath ["keep.md"] d1 = some (Entry.file 2))
    ∧ installEntry demoDest "fresh.md" (Entry.file 5) =
        some (setChild demoDest "fresh.md" (Entry.file 5), []) := by
  refine ⟨(C3_merge_mode_install demoDest "README").1 3 9 (by rfl), ?_,
    (C3_merge_mode_install demoDest "fresh.md").2.2 (Entry.file 5) (by rfl)⟩
  have h := (C3_merge_mode_install demoDest "docs").2.1
    [("new.md", Entry.file 7)]
    (Entry.dir [("old.md", Entry.file 1), ("keep.md", Entry.file 2)])
    [("docs", Entry.dir [("old.md", Entry.file 1), ("keep.md", Entry.file 2),
        ("new.md", Entry.file 7)]),
     ("README", Entry.file 3)]
    [InstallWarning.mergingDir "docs"]
    (by rfl) (by rfl)
  obtain ⟨-, d1, hld, hmain⟩ := h
  have h2 := hmain (by simp [filesOf, filesOfChildren])
    (by
      intro pc hm ds
      simp [filesOf, filesOfChildren] at hm
      subst hm
      simp [lookupPath, lookupChild, List.find?])
    (by
      intro pc1 h1 pc2 hmem2
      simp [filesOf, filesOfChildren] at h1 hmem2
      subst h1
      subst hmem2
      intro hne
      exact absurd rfl hne)
  refine ⟨d1, hld, ?_, ?_⟩
  · exact h2.1 ["new.md"] 7 (by simp [filesOf, filesOfChildren])
  · refine h2.2 ["keep.md"] 2 (by rfl) ?_
    intro pc hm
    simp [filesOf, filesOfChildren] at hm
    subst hm
    decide

/-- C10: when a source directory is merged into an existing same-named
destination entry, only the regular files of the source are copied (their
parent directories created as needed). A path `q` absent at the destination
stays absent provided `q` does not lead into any copied file's relative path
and no copied path leads into `q` — both automatic when `q` is the path of a
source subdirectory containing no files, since nothing lies below a file in
the source tree and a directory is not a copied file. So such an empty
subdirectory is not created at the destination. -/
theorem C10_no_empty_dirs (dest : List (String × Entry)) (name : String)
    (srcCs : List (String × Entry)) (d0 : Entry) (d2 : List (String × Entry))
    (ws : List InstallWarning) (q : List String)
    (hl : lookupChild dest name = some d0)
    (hrun : installEntry dest name (.dir srcCs) = some (d2, ws))
    (habs : lookupPath q d0 = none)
    (hnof : ∀ pc ∈ filesOf (Entry.dir srcCs), isLead q pc.1 = false)
    (hnover : ∀ pc ∈ filesOf (Entry.dir srcCs), isLead pc.1 q = false) :
    ∃ d1, lookupChild d2 name = some d1 ∧ lookupPath q d1 = none := by
  simp only [installEntry, hl] at hrun
  rcases hm : mergeFiles (filesOf (Entry.dir srcCs)) d0 with _ | d1
  · simp [hm] at hrun
  · simp only [hm, Option.some.injEq, Prod.mk.injEq] at hrun
    obtain ⟨hd2, hws⟩ := hrun
    subst hd2
    exact ⟨d1, lookupChild_setChild_same dest name d1,
      mergeFiles_absent (filesOf (Entry.dir srcCs)) d0 d1 q hm habs hnof hnover⟩

/-- C10 witness: merging a source `docs` containing an empty subdirectory
`emptydir` and a file `new.md` into an existing empty `docs` copies only the
file; `emptydir` does not appear at the destination. -/
theorem C10_no_empty_dirs_witness :
    ∃ d1, lookupChild [("docs", Entry.dir [("new.md", Entry.file 7)])] "docs" =
        some d1
      ∧ lookupPath ["emptydir"] d1 = none := by
  exact C10_no_empty_dirs [("docs", Entry.dir [])] "docs"
    [("emptydir", Entry.dir []), ("new.md", Entry.file 7)] (Entry.dir [])
    [("docs", Entry.dir [("new.md", Entry.file 7)])]
    [InstallWarning.mergingDir "docs"] ["emptydir"]
    (by rfl) (by rfl) (by rfl)
    (by simp [filesOf, filesOfChildren, isLead])
    (by simp [filesOf, filesOfChildren, isLead])

end Sdd
